import Mathlib

/-!
Shallow embedding of the chapter2 CPU rasterizer (`src/chapter2/src/rasterization.rs`).

Modelling choices:
* `f32` is modelled by `ℚ` (abbreviated `F`).  Every concrete value exercised by the
  claims (vertex positions, projected coordinates, edge-function values, barycentric
  weights for the viewports used in the witnesses) is a small dyadic or small-denominator
  rational on which the Rust `f32` operations are exact, so the rational model agrees
  bit-for-bit with the code on those inputs; the general theorems hold in the exact
  rational semantics of the same operation sequence.
* `i32` is modelled by `ℤ` (the claims only exercise small magnitudes, far from overflow).
* The Rust cast `f32 as i32` truncates toward zero; it is modelled by `fTrunc`.
* The casts `(w * h) as usize` and `(i + j * width) as usize` are modelled by
  `Int.toNat`; the claims only quantify over situations where the operand is
  nonnegative, where the two agree.
* The pixel buffer `Vec<[f32; 4]>` is a `List Pix`; `vec![[0.0; 4]; n]` is
  `List.replicate n zeroPix`, and the indexed assignment `pixels[idx] = ...` is
  `List.set`.
* The two nested `for` loops of `render` are left folds over the inclusive integer
  ranges `rangeIcc`, in the same order (rows outside, columns inside).  The local
  variables `v0, v1, v2, x_min, x_max, y_min, y_max` of `render` are hoisted into the
  named definitions `rasterV0 .. yMaxI` (pure recomputation, value-identical), and the
  loop body is split into `insideTest` (the sign test), `coverPix` (the normalisation
  and colour interpolation) and `pixelStep` (the conditional write), so that the
  theorems can speak about each stage.
-/

abbrev F := ℚ

/-- 2D float vector (`glam::Vec2`). -/
structure Vec2 where
  x : F
  y : F
deriving DecidableEq

/-- 3D float vector (`glam::Vec3`). -/
structure Vec3 where
  x : F
  y : F
  z : F
deriving DecidableEq

/-- Componentwise `Vec3` addition (`glam` `+`). -/
def Vec3.add (v w : Vec3) : Vec3 :=
  ⟨v.x + w.x, v.y + w.y, v.z + w.z⟩

/-- `Vec3 * f32` scalar multiplication (`glam` `v * s`, componentwise). -/
def Vec3.mulScalar (v : Vec3) (s : F) : Vec3 :=
  ⟨v.x * s, v.y * s, v.z * s⟩

/-- A vertex: position and RGB colour (`MyVertex`). -/
structure MyVertex where
  pos : Vec3
  color : Vec3
deriving DecidableEq

/-- A triangle: three vertices in fixed winding order (`MyTriangle`). -/
structure MyTriangle where
  v0 : MyVertex
  v1 : MyVertex
  v2 : MyVertex
deriving DecidableEq

/-- The rasterizer state (`Rasterization`): viewport dimensions and the owned triangle. -/
structure Rasterization where
  width : ℤ
  height : ℤ
  triangle : MyTriangle
deriving DecidableEq

/-- One RGBA pixel (`[f32; 4]`). -/
structure Pix where
  r : F
  g : F
  b : F
  a : F
deriving DecidableEq

/-- The buffer initialisation value: transparent black `[0.0; 4]`. -/
def zeroPix : Pix := ⟨0, 0, 0, 0⟩

/-- `Rasterization::new`: stores the dimensions and the fixed default triangle
`(0,0,0)` red, `(1,0,0)` green, `(0,1,0)` blue. -/
def Rasterization.new (width height : ℤ) : Rasterization :=
  { width := width
    height := height
    triangle :=
      { v0 := { pos := ⟨0, 0, 0⟩, color := ⟨1, 0, 0⟩ }
        v1 := { pos := ⟨1, 0, 0⟩, color := ⟨0, 1, 0⟩ }
        v2 := { pos := ⟨0, 1, 0⟩, color := ⟨0, 0, 1⟩ } } }

/-- `Rasterization::project_world_to_raster`: aspect-corrected NDC, then raster
transform with the y axis flipped and a `-0.5` pixel-centre shift.  `point.z` is
unused. -/
def project_world_to_raster (self : Rasterization) (point : Vec3) : Vec2 :=
  let aspect : F := (self.width : F) / (self.height : F)
  let pointNdc : Vec2 := ⟨point.x / aspect, point.y⟩
  let xScale : F := 2 / (self.width : F)
  let yScale : F := 2 / (self.height : F)
  ⟨(pointNdc.x + 1) / xScale - 1/2, (1 - pointNdc.y) / yScale - 1/2⟩

/-- `Rasterization::edge_function`: signed parallelogram area of `point - v0`
against `v1 - v0` (the `self` argument is unused, as in the source). -/
def edge_function (_self : Rasterization) (v0 v1 point : Vec2) : F :=
  (point.x - v0.x) * (v1.y - v0.y) - (point.y - v0.y) * (v1.x - v0.x)

/-- The Rust `f32 as i32` cast: truncation toward zero. -/
def fTrunc (q : F) : ℤ :=
  if 0 ≤ q then ⌊q⌋ else ⌈q⌉

/-- The inclusive integer range `a..=b` as a list (empty when `b < a`). -/
def rangeIcc (a b : ℤ) : List ℤ :=
  (List.range (b + 1 - a).toNat).map (fun k : ℕ => a + (k : ℤ))

/-- Projected vertex `v0` (`render`, line `let v0 = ...`). -/
def rasterV0 (self : Rasterization) : Vec2 :=
  project_world_to_raster self self.triangle.v0.pos

/-- Projected vertex `v1`. -/
def rasterV1 (self : Rasterization) : Vec2 :=
  project_world_to_raster self self.triangle.v1.pos

/-- Projected vertex `v2`. -/
def rasterV2 (self : Rasterization) : Vec2 :=
  project_world_to_raster self self.triangle.v2.pos

/-- `x_min = v0.x.min(v1.x).min(v2.x).max(0.0) as i32`. -/
def xMinI (self : Rasterization) : ℤ :=
  fTrunc (max (min (min (rasterV0 self).x (rasterV1 self).x) (rasterV2 self).x) 0)

/-- `x_max = v0.x.max(v1.x).max(v2.x).min(self.width as f32 - 1.0) as i32`. -/
def xMaxI (self : Rasterization) : ℤ :=
  fTrunc (min (max (max (rasterV0 self).x (rasterV1 self).x) (rasterV2 self).x) ((self.width : F) - 1))

/-- `y_min = v0.y.min(v1.y).min(v2.y).max(0.0) as i32`. -/
def yMinI (self : Rasterization) : ℤ :=
  fTrunc (max (min (min (rasterV0 self).y (rasterV1 self).y) (rasterV2 self).y) 0)

/-- `y_max = v0.y.max(v1.y).max(v2.y).min(self.height as f32 - 1.0) as i32`. -/
def yMaxI (self : Rasterization) : ℤ :=
  fTrunc (min (max (max (rasterV0 self).y (rasterV1 self).y) (rasterV2 self).y) ((self.height : F) - 1))

/-- `alpha0 = self.edge_function(v1, v2, point)`. -/
def alpha0At (self : Rasterization) (point : Vec2) : F :=
  edge_function self (rasterV1 self) (rasterV2 self) point

/-- `alpha1 = self.edge_function(v2, v0, point)`. -/
def alpha1At (self : Rasterization) (point : Vec2) : F :=
  edge_function self (rasterV2 self) (rasterV0 self) point

/-- `alpha2 = self.edge_function(v0, v1, point)`. -/
def alpha2At (self : Rasterization) (point : Vec2) : F :=
  edge_function self (rasterV0 self) (rasterV1 self) point

/-- The inside test `alpha0 >= 0.0 && alpha1 >= 0.0 && alpha2 >= 0.0` at the
unshifted sample point `(i as f32, j as f32)`. -/
def insideTest (self : Rasterization) (i j : ℤ) : Prop :=
  0 ≤ alpha0At self ⟨(i : F), (j : F)⟩ ∧
    0 ≤ alpha1At self ⟨(i : F), (j : F)⟩ ∧
    0 ≤ alpha2At self ⟨(i : F), (j : F)⟩

instance insideTestDec (self : Rasterization) (i j : ℤ) : Decidable (insideTest self i j) := by
  unfold insideTest
  exact inferInstance

/-- Barycentric normalisation: divide by `total = alpha0 + alpha1 + alpha2` when it
is nonzero, otherwise the `(1/3, 1/3, 1/3)` degenerate-triangle fallback
(`render`, lines 96-102; the source binds `total` to a local, inlined here). -/
def normWeights (alpha0 alpha1 alpha2 : F) : F × F × F :=
  if alpha0 + alpha1 + alpha2 ≠ 0 then
    (alpha0 / (alpha0 + alpha1 + alpha2), alpha1 / (alpha0 + alpha1 + alpha2),
      alpha2 / (alpha0 + alpha1 + alpha2))
  else (1/3, 1/3, 1/3)

/-- The pixel value written for a covered pixel `(i, j)`: interpolated colour with
alpha channel `1.0` (`render`, lines 96-110). -/
def coverPix (self : Rasterization) (i j : ℤ) : Pix :=
  let point : Vec2 := ⟨(i : F), (j : F)⟩
  let w := normWeights (alpha0At self point) (alpha1At self point) (alpha2At self point)
  let color :=
    Vec3.add (Vec3.add (Vec3.mulScalar self.triangle.v0.color w.1)
        (Vec3.mulScalar self.triangle.v1.color w.2.1))
      (Vec3.mulScalar self.triangle.v2.color w.2.2)
  ⟨color.x, color.y, color.z, 1⟩

/-- One iteration of the inner pixel loop: test the pixel at `(i, j)` and write
`pixels[(i + j * width) as usize]` when it is inside. -/
def pixelStep (self : Rasterization) (j : ℤ) (px : List Pix) (i : ℤ) : List Pix :=
  if insideTest self i j then px.set (i + j * self.width).toNat (coverPix self i j)
  else px

/-- One iteration of the outer row loop: fold the pixel step over `x_min..=x_max`. -/
def rowStep (self : Rasterization) (px : List Pix) (j : ℤ) : List Pix :=
  (rangeIcc (xMinI self) (xMaxI self)).foldl (pixelStep self j) px

/-- `Rasterization::render`: fresh buffer of `width * height` transparent-black
pixels, then the row loop over `y_min..=y_max`. -/
def render (self : Rasterization) : List Pix :=
  (rangeIcc (yMinI self) (yMaxI self)).foldl (rowStep self)
    (List.replicate (self.width * self.height).toNat zeroPix)

/-- `Rasterization::update`: a no-op. -/
def Rasterization.update (self : Rasterization) : Rasterization :=
  self

/-- The value `render` leaves at buffer position `i + j * width` for a viewport
pixel `(i, j)`: the covered colour when `(i, j)` is in the clamped bounding box and
passes the inside test, the initial transparent black otherwise.  This is the
pointwise characterisation of the imperative loop, proved in `render_getElem`. -/
def pixelValue (self : Rasterization) (i j : ℤ) : Pix :=
  if xMinI self ≤ i ∧ i ≤ xMaxI self ∧ yMinI self ≤ j ∧ j ≤ yMaxI self ∧ insideTest self i j
  then coverPix self i j else zeroPix

/-- A rasterizer whose (degenerate) triangle projects, on a 4×4 viewport, to the
single point `(-0.7, -0.7)` — strictly outside the viewport, yet truncating into
the clamped bounding box `{0} × {0}`.  Used to refute claim C8 as stated. -/
def rOut : Rasterization :=
  { width := 4
    height := 4
    triangle :=
      { v0 := { pos := ⟨-(11/10), 11/10, 0⟩, color := ⟨1, 0, 0⟩ }
        v1 := { pos := ⟨-(11/10), 11/10, 0⟩, color := ⟨0, 1, 0⟩ }
        v2 := { pos := ⟨-(11/10), 11/10, 0⟩, color := ⟨0, 0, 1⟩ } } }

/-- A rasterizer whose triangle projects, on a 4×4 viewport, to the single point
`(-1.5, -1.5)` — far enough outside that the clamped integer bounds invert
(`x_max = -1 < 0 = x_min`), so the pixel loop runs zero iterations. -/
def rFar : Rasterization :=
  { width := 4
    height := 4
    triangle :=
      { v0 := { pos := ⟨-(3/2), 3/2, 0⟩, color := ⟨1, 0, 0⟩ }
        v1 := { pos := ⟨-(3/2), 3/2, 0⟩, color := ⟨0, 1, 0⟩ }
        v2 := { pos := ⟨-(3/2), 3/2, 0⟩, color := ⟨0, 0, 1⟩ } } }

/-- A rasterizer with the default colours whose three vertices coincide at the
world origin: on a 4×4 viewport all three project to `(1.5, 1.5)`, every
edge-function value is `0`, and the degenerate-triangle fallback fires. -/
def rDeg : Rasterization :=
  { width := 4
    height := 4
    triangle :=
      { v0 := { pos := ⟨0, 0, 0⟩, color := ⟨1, 0, 0⟩ }
        v1 := { pos := ⟨0, 0, 0⟩, color := ⟨0, 1, 0⟩ }
        v2 := { pos := ⟨0, 0, 0⟩, color := ⟨0, 0, 1⟩ } } }

/-! ### Lemmas about ranges, truncation and buffer indexing -/

theorem mem_rangeIcc {a b i : ℤ} : i ∈ rangeIcc a b ↔ a ≤ i ∧ i ≤ b := by
  unfold rangeIcc
  simp only [List.mem_map, List.mem_range]
  constructor
  · rintro ⟨k, hk, rfl⟩
    omega
  · rintro ⟨h1, h2⟩
    exact ⟨(i - a).toNat, by omega, by omega⟩

theorem nodup_rangeIcc (a b : ℤ) : (rangeIcc a b).Nodup := by
  unfold rangeIcc
  refine List.Nodup.map ?_ (List.nodup_range _)
  intro x y hxy
  have hxy2 : (x : ℤ) = (y : ℤ) := by simpa using hxy
  omega

theorem rangeIcc_eq_nil {a b : ℤ} (h : b < a) : rangeIcc a b = [] := by
  unfold rangeIcc
  have h0 : (b + 1 - a).toNat = 0 := by omega
  rw [h0]
  rfl

theorem fTrunc_nonneg {q : F} (h : 0 ≤ q) : 0 ≤ fTrunc q := by
  unfold fTrunc
  rw [if_pos h]
  exact Int.le_floor.mpr (by exact_mod_cast h)

theorem fTrunc_le_int {q : F} {n : ℤ} (hn : 0 ≤ n) (h : q ≤ (n : F)) : fTrunc q ≤ n := by
  unfold fTrunc
  split
  · calc ⌊q⌋ ≤ ⌊(n : F)⌋ := Int.floor_le_floor h
      _ = n := Int.floor_intCast n
  · have hq : q ≤ ((0 : ℤ) : F) := by
      push_cast
      linarith
    exact le_trans (Int.ceil_le.mpr hq) hn

theorem xMinI_nonneg (self : Rasterization) : 0 ≤ xMinI self :=
  fTrunc_nonneg (le_max_right _ _)

theorem yMinI_nonneg (self : Rasterization) : 0 ≤ yMinI self :=
  fTrunc_nonneg (le_max_right _ _)

theorem xMaxI_le (self : Rasterization) (hw : 0 < self.width) : xMaxI self ≤ self.width - 1 := by
  refine fTrunc_le_int (by omega) ?_
  push_cast
  exact min_le_right _ _

theorem yMaxI_le (self : Rasterization) (hh : 0 < self.height) : yMaxI self ≤ self.height - 1 := by
  refine fTrunc_le_int (by omega) ?_
  push_cast
  exact min_le_right _ _

theorem rowIndex_inj {w i i0 j j0 : ℤ} (hw : 0 < w) (hi : 0 ≤ i) (hiw : i ≤ w - 1)
    (hi0 : 0 ≤ i0) (hi0w : i0 ≤ w - 1) (hj : 0 ≤ j) (hj0 : 0 ≤ j0)
    (h : (i + j * w).toNat = (i0 + j0 * w).toNat) : i = i0 ∧ j = j0 := by
  have hjw : 0 ≤ j * w := mul_nonneg hj hw.le
  have hj0w : 0 ≤ j0 * w := mul_nonneg hj0 hw.le
  have hcast : ((i + j * w).toNat : ℤ) = ((i0 + j0 * w).toNat : ℤ) := by rw [h]
  rw [Int.toNat_of_nonneg (by linarith), Int.toNat_of_nonneg (by linarith)] at hcast
  have hd : (j - j0) * w = i0 - i := by linear_combination hcast
  rcases lt_trichotomy j j0 with hlt | heq | hgt
  · exfalso
    have h1 : j - j0 ≤ -1 := by omega
    have h2 : (j - j0) * w ≤ -1 * w := mul_le_mul_of_nonneg_right h1 hw.le
    linarith
  · exact ⟨by rw [heq] at hcast; linarith, heq⟩
  · exfalso
    have h1 : 1 ≤ j - j0 := by omega
    have h2 : 1 * w ≤ (j - j0) * w := mul_le_mul_of_nonneg_right h1 hw.le
    linarith

/-! ### Length preservation -/

theorem foldl_length_eq {f : List Pix → ℤ → List Pix}
    (hf : ∀ px i, (f px i).length = px.length) :
    ∀ (L : List ℤ) (px : List Pix), (L.foldl f px).length = px.length := by
  intro L
  induction L with
  | nil => intro px; rfl
  | cons a as ih =>
    intro px
    rw [List.foldl_cons, ih, hf]

theorem pixelStep_length (self : Rasterization) (j : ℤ) (px : List Pix) (i : ℤ) :
    (pixelStep self j px i).length = px.length := by
  unfold pixelStep
  split
  · exact List.length_set px _ _
  · rfl

theorem rowStep_length (self : Rasterization) (px : List Pix) (j : ℤ) :
    (rowStep self px j).length = px.length :=
  foldl_length_eq (pixelStep_length self j) _ px

theorem render_length_eq (self : Rasterization) :
    (render self).length = (self.width * self.height).toNat := by
  unfold render
  rw [foldl_length_eq (rowStep_length self), List.length_replicate]

/-! ### Pointwise behaviour of the pixel loop -/

theorem pixelStep_getElem_ne (self : Rasterization) (j : ℤ) (px : List Pix) (i : ℤ) (m : ℕ)
    (hne : (i + j * self.width).toNat ≠ m) :
    (pixelStep self j px i)[m]? = px[m]? := by
  unfold pixelStep
  split
  · exact List.getElem?_set_ne hne
  · rfl

theorem pixelStep_getElem_self (self : Rasterization) (j : ℤ) (px : List Pix) (i : ℤ)
    (hm : (i + j * self.width).toNat < px.length) :
    (pixelStep self j px i)[(i + j * self.width).toNat]? =
      if insideTest self i j then some (coverPix self i j)
      else px[(i + j * self.width).toNat]? := by
  unfold pixelStep
  by_cases h : insideTest self i j
  · rw [if_pos h, if_pos h, List.getElem?_set_eq_of_lt _ hm]
  · rw [if_neg h, if_neg h]

theorem foldl_pixelStep_not_mem (self : Rasterization) (j : ℤ) (m : ℕ) :
    ∀ (L : List ℤ) (px : List Pix), (∀ i ∈ L, (i + j * self.width).toNat ≠ m) →
      (L.foldl (pixelStep self j) px)[m]? = px[m]? := by
  intro L
  induction L with
  | nil => intro px _; rfl
  | cons a as ih =>
    intro px hL
    rw [List.foldl_cons, ih _ (fun i hi => hL i (List.mem_cons_of_mem a hi)),
      pixelStep_getElem_ne self j px a m (hL a (List.mem_cons_self a as))]

theorem foldl_pixelStep_mem (self : Rasterization) (j : ℤ) (hjw : 0 ≤ j * self.width) :
    ∀ (L : List ℤ) (px : List Pix), L.Nodup → (∀ i ∈ L, 0 ≤ i) →
      ∀ i0, i0 ∈ L → (i0 + j * self.width).toNat < px.length →
      (L.foldl (pixelStep self j) px)[(i0 + j * self.width).toNat]? =
        if insideTest self i0 j then some (coverPix self i0 j)
        else px[(i0 + j * self.width).toNat]? := by
  intro L
  induction L with
  | nil =>
    intro px _ _ i0 h0
    exact absurd h0 (List.not_mem_nil i0)
  | cons a as ih =>
    intro px hnd hpos i0 hmem hlen
    rw [List.foldl_cons]
    rcases List.mem_cons.mp hmem with rfl | hmem0
    · have ha : i0 ∉ as := (List.nodup_cons.mp hnd).1
      have hne : ∀ i ∈ as, (i + j * self.width).toNat ≠ (i0 + j * self.width).toNat := by
        intro i hi
        have h1 : 0 ≤ i := hpos i (List.mem_cons_of_mem i0 hi)
        have h2 : 0 ≤ i0 := hpos i0 (List.mem_cons_self i0 as)
        have h3 : i ≠ i0 := fun h => ha (h ▸ hi)
        omega
      rw [foldl_pixelStep_not_mem self j _ as _ hne, pixelStep_getElem_self self j px i0 hlen]
    · have hpl : (i0 + j * self.width).toNat < (pixelStep self j px a).length := by
        rw [pixelStep_length]
        exact hlen
      rw [ih _ (List.nodup_cons.mp hnd).2 (fun i hi => hpos i (List.mem_cons_of_mem a hi))
        i0 hmem0 hpl]
      have hne : (a + j * self.width).toNat ≠ (i0 + j * self.width).toNat := by
        have h1 : 0 ≤ a := hpos a (List.mem_cons_self a as)
        have h2 : 0 ≤ i0 := hpos i0 hmem
        have h3 : a ≠ i0 := fun h => (List.nodup_cons.mp hnd).1 (h ▸ hmem0)
        omega
      rw [pixelStep_getElem_ne self j px a _ hne]

theorem rowStep_getElem_ne (self : Rasterization) (hw : 0 < self.width) (px : List Pix)
    (j j0 i0 : ℤ) (hi0 : 0 ≤ i0) (hi0w : i0 ≤ self.width - 1) (hj : 0 ≤ j) (hj0 : 0 ≤ j0)
    (hne : j ≠ j0) :
    (rowStep self px j)[(i0 + j0 * self.width).toNat]? = px[(i0 + j0 * self.width).toNat]? := by
  unfold rowStep
  apply foldl_pixelStep_not_mem
  intro i hi hEq
  have h1 := (mem_rangeIcc.mp hi).1
  have h2 := (mem_rangeIcc.mp hi).2
  have h3 := xMinI_nonneg self
  have h4 := xMaxI_le self hw
  exact hne (rowIndex_inj hw (by omega) (by omega) hi0 hi0w hj hj0 hEq).2

theorem rowStep_getElem_self (self : Rasterization) (hw : 0 < self.width) (px : List Pix)
    (j0 i0 : ℤ) (hi0 : 0 ≤ i0) (hi0w : i0 ≤ self.width - 1) (hj0 : 0 ≤ j0)
    (hlen : (i0 + j0 * self.width).toNat < px.length) :
    (rowStep self px j0)[(i0 + j0 * self.width).toNat]? =
      if xMinI self ≤ i0 ∧ i0 ≤ xMaxI self ∧ insideTest self i0 j0
      then some (coverPix self i0 j0)
      else px[(i0 + j0 * self.width).toNat]? := by
  unfold rowStep
  by_cases hmem : xMinI self ≤ i0 ∧ i0 ≤ xMaxI self
  · have hmem2 : i0 ∈ rangeIcc (xMinI self) (xMaxI self) := mem_rangeIcc.mpr hmem
    rw [foldl_pixelStep_mem self j0 (mul_nonneg hj0 hw.le) _ px (nodup_rangeIcc _ _)
      (fun i hi => le_trans (xMinI_nonneg self) (mem_rangeIcc.mp hi).1) i0 hmem2 hlen]
    by_cases hin : insideTest self i0 j0
    · rw [if_pos hin, if_pos ⟨hmem.1, hmem.2, hin⟩]
    · rw [if_neg hin, if_neg (fun h => hin h.2.2)]
  · rw [foldl_pixelStep_not_mem self j0 _ _ px ?_]
    · rw [if_neg (fun h => hmem ⟨h.1, h.2.1⟩)]
    · intro i hi hEq
      have h1 := (mem_rangeIcc.mp hi).1
      have h2 := (mem_rangeIcc.mp hi).2
      have h3 := xMinI_nonneg self
      have h4 := xMaxI_le self hw
      have h5 := (rowIndex_inj hw (by omega) (by omega) hi0 hi0w hj0 hj0 hEq).1
      exact hmem ⟨by omega, by omega⟩

theorem foldl_rowStep_not_mem (self : Rasterization) (hw : 0 < self.width) (i0 j0 : ℤ)
    (hi0 : 0 ≤ i0) (hi0w : i0 ≤ self.width - 1) (hj0 : 0 ≤ j0) :
    ∀ (L : List ℤ) (px : List Pix), (∀ j ∈ L, 0 ≤ j) → j0 ∉ L →
      (L.foldl (rowStep self) px)[(i0 + j0 * self.width).toNat]? =
        px[(i0 + j0 * self.width).toNat]? := by
  intro L
  induction L with
  | nil => intro px _ _; rfl
  | cons a as ih =>
    intro px hpos hnm
    rw [List.foldl_cons,
      ih _ (fun j hj => hpos j (List.mem_cons_of_mem a hj))
        (fun h => hnm (List.mem_cons_of_mem a h)),
      rowStep_getElem_ne self hw px a j0 i0 hi0 hi0w (hpos a (List.mem_cons_self a as)) hj0
        (fun h => hnm (by rw [← h]; exact List.mem_cons_self a as))]

theorem foldl_rowStep_mem (self : Rasterization) (hw : 0 < self.width) (i0 j0 : ℤ)
    (hi0 : 0 ≤ i0) (hi0w : i0 ≤ self.width - 1) (hj0 : 0 ≤ j0) :
    ∀ (L : List ℤ) (px : List Pix), L.Nodup → (∀ j ∈ L, 0 ≤ j) → j0 ∈ L →
      (i0 + j0 * self.width).toNat < px.length →
      (L.foldl (rowStep self) px)[(i0 + j0 * self.width).toNat]? =
        if xMinI self ≤ i0 ∧ i0 ≤ xMaxI self ∧ insideTest self i0 j0
        then some (coverPix self i0 j0)
        else px[(i0 + j0 * self.width).toNat]? := by
  intro L
  induction L with
  | nil =>
    intro px _ _ h0
    exact absurd h0 (List.not_mem_nil j0)
  | cons a as ih =>
    intro px hnd hpos hmem hlen
    rw [List.foldl_cons]
    rcases List.mem_cons.mp hmem with rfl | hmem0
    · have ha : j0 ∉ as := (List.nodup_cons.mp hnd).1
      rw [foldl_rowStep_not_mem self hw i0 j0 hi0 hi0w hj0 as _
        (fun j hj => hpos j (List.mem_cons_of_mem j0 hj)) ha,
        rowStep_getElem_self self hw px j0 i0 hi0 hi0w hj0 hlen]
    · have hpl : (i0 + j0 * self.width).toNat < (rowStep self px a).length := by
        rw [rowStep_length]
        exact hlen
      rw [ih _ (List.nodup_cons.mp hnd).2 (fun j hj => hpos j (List.mem_cons_of_mem a hj))
        hmem0 hpl,
        rowStep_getElem_ne self hw px a j0 i0 hi0 hi0w (hpos a (List.mem_cons_self a as)) hj0
          (fun h => (List.nodup_cons.mp hnd).1 (h ▸ hmem0))]

theorem render_getElem (self : Rasterization) (hw : 0 < self.width) (hh : 0 < self.height)
    (i0 j0 : ℤ) (hi0 : 0 ≤ i0) (hi0w : i0 < self.width) (hj0 : 0 ≤ j0)
    (hj0h : j0 < self.height) :
    (render self)[(i0 + j0 * self.width).toNat]? = some (pixelValue self i0 j0) := by
  have hidx : (i0 + j0 * self.width).toNat < (self.width * self.height).toNat := by
    have h1 : j0 * self.width ≤ (self.height - 1) * self.width :=
      mul_le_mul_of_nonneg_right (by omega) hw.le
    have h2 : (self.width - 1) + (self.height - 1) * self.width < self.width * self.height := by
      ring_nf
      nlinarith [hw, hh]
    have h3 : 0 ≤ j0 * self.width := mul_nonneg hj0 hw.le
    omega
  have hlen : (i0 + j0 * self.width).toNat <
      (List.replicate (self.width * self.height).toNat zeroPix).length := by
    rw [List.length_replicate]
    exact hidx
  have hrepl : (List.replicate (self.width * self.height).toNat zeroPix)[(i0 + j0 *
      self.width).toNat]? = some zeroPix := by
    rw [List.getElem?_replicate, if_pos hidx]
  unfold render pixelValue
  by_cases hy : yMinI self ≤ j0 ∧ j0 ≤ yMaxI self
  · have hmem : j0 ∈ rangeIcc (yMinI self) (yMaxI self) := mem_rangeIcc.mpr hy
    rw [foldl_rowStep_mem self hw i0 j0 hi0 (by omega) hj0 _ _ (nodup_rangeIcc _ _)
      (fun j hj => le_trans (yMinI_nonneg self) (mem_rangeIcc.mp hj).1) hmem hlen]
    by_cases hx : xMinI self ≤ i0 ∧ i0 ≤ xMaxI self ∧ insideTest self i0 j0
    · rw [if_pos hx, if_pos ⟨hx.1, hx.2.1, hy.1, hy.2, hx.2.2⟩]
    · rw [if_neg hx, if_neg (fun h => hx ⟨h.1, h.2.1, h.2.2.2.2⟩), hrepl]
  · rw [foldl_rowStep_not_mem self hw i0 j0 hi0 (by omega) hj0 _ _
      (fun j hj => le_trans (yMinI_nonneg self) (mem_rangeIcc.mp hj).1)
      (fun h => hy ⟨(mem_rangeIcc.mp h).1, (mem_rangeIcc.mp h).2⟩),
      if_neg (fun h => hy ⟨h.2.2.1, h.2.2.2.1⟩), hrepl]

/-! ### Invariants for channel bounds -/

theorem foldl_forall_mem {Q : Pix → Prop} {f : List Pix → ℤ → List Pix}
    (hf : ∀ px i, (∀ p ∈ px, Q p) → ∀ p ∈ f px i, Q p) :
    ∀ (L : List ℤ) (px : List Pix), (∀ p ∈ px, Q p) → ∀ p ∈ L.foldl f px, Q p := by
  intro L
  induction L with
  | nil => intro px h; exact h
  | cons a as ih =>
    intro px h
    exact ih _ (hf px a h)

theorem normWeights_unit {a0 a1 a2 : F} (h0 : 0 ≤ a0) (h1 : 0 ≤ a1) (h2 : 0 ≤ a2) :
    (0 ≤ (normWeights a0 a1 a2).1 ∧ (normWeights a0 a1 a2).1 ≤ 1) ∧
      (0 ≤ (normWeights a0 a1 a2).2.1 ∧ (normWeights a0 a1 a2).2.1 ≤ 1) ∧
      (0 ≤ (normWeights a0 a1 a2).2.2 ∧ (normWeights a0 a1 a2).2.2 ≤ 1) := by
  unfold normWeights
  by_cases ht : a0 + a1 + a2 ≠ 0
  · rw [if_pos ht]
    have htpos : 0 < a0 + a1 + a2 := lt_of_le_of_ne (by linarith) (Ne.symm ht)
    refine ⟨⟨div_nonneg h0 htpos.le, ?_⟩, ⟨div_nonneg h1 htpos.le, ?_⟩,
      ⟨div_nonneg h2 htpos.le, ?_⟩⟩
    · exact (div_le_one htpos).mpr (by linarith)
    · exact (div_le_one htpos).mpr (by linarith)
    · exact (div_le_one htpos).mpr (by linarith)
  · rw [if_neg ht]
    norm_num

theorem coverPix_a (self : Rasterization) (i j : ℤ) : (coverPix self i j).a = 1 := by
  simp [coverPix]

theorem coverPix_ne_zeroPix (self : Rasterization) (i j : ℤ) : coverPix self i j ≠ zeroPix := by
  intro h
  have ha := coverPix_a self i j
  rw [h] at ha
  simp [zeroPix] at ha

theorem coverPix_new (wd ht i j : ℤ) :
    coverPix (Rasterization.new wd ht) i j =
      ⟨(normWeights (alpha0At (Rasterization.new wd ht) ⟨(i : F), (j : F)⟩)
          (alpha1At (Rasterization.new wd ht) ⟨(i : F), (j : F)⟩)
          (alpha2At (Rasterization.new wd ht) ⟨(i : F), (j : F)⟩)).1,
        (normWeights (alpha0At (Rasterization.new wd ht) ⟨(i : F), (j : F)⟩)
          (alpha1At (Rasterization.new wd ht) ⟨(i : F), (j : F)⟩)
          (alpha2At (Rasterization.new wd ht) ⟨(i : F), (j : F)⟩)).2.1,
        (normWeights (alpha0At (Rasterization.new wd ht) ⟨(i : F), (j : F)⟩)
          (alpha1At (Rasterization.new wd ht) ⟨(i : F), (j : F)⟩)
          (alpha2At (Rasterization.new wd ht) ⟨(i : F), (j : F)⟩)).2.2, 1⟩ := by
  show Pix.mk _ _ _ _ = _
  simp only [coverPix, Rasterization.new, Vec3.add, Vec3.mulScalar]
  norm_num

/-! ### Empty bounding box -/

theorem foldl_of_id {f : List Pix → ℤ → List Pix} (hf : ∀ px j, f px j = px) :
    ∀ (L : List ℤ) (px : List Pix), L.foldl f px = px := by
  intro L
  induction L with
  | nil => intro px; rfl
  | cons a as ih =>
    intro px
    rw [List.foldl_cons, hf, ih]

/-- C8 (amended): when the projected triangle lies far enough outside the viewport
that the clamped integer bounds invert (`x_max < x_min` or `y_max < y_min`), the
corresponding `..=` range is empty, the pixel loop performs zero iterations, and
`render()` returns the freshly initialised buffer unchanged — every pixel is the
transparent black `[0,0,0,0]`.  (The unamended claim, that this happens whenever
the triangle is fully outside the viewport, is refuted by
`outside_triangle_paints_pixel`.) -/
theorem render_of_empty_box (self : Rasterization)
    (h : xMaxI self < xMinI self ∨ yMaxI self < yMinI self) :
    render self = List.replicate (self.width * self.height).toNat zeroPix := by
  unfold render
  rcases h with h | h
  · refine foldl_of_id ?_ _ _
    intro px j
    unfold rowStep
    rw [rangeIcc_eq_nil h]
    rfl
  · rw [rangeIcc_eq_nil h]
    rfl

/-! ### Concrete evaluations used by witnesses and counterexamples -/

theorem rasterV0_new44 : rasterV0 (Rasterization.new 4 4) = ⟨3/2, 3/2⟩ := by
  simp only [rasterV0, project_world_to_raster, Rasterization.new]
  norm_num

theorem rasterV1_new44 : rasterV1 (Rasterization.new 4 4) = ⟨7/2, 3/2⟩ := by
  simp only [rasterV1, project_world_to_raster, Rasterization.new]
  norm_num

theorem rasterV2_new44 : rasterV2 (Rasterization.new 4 4) = ⟨3/2, -(1/2)⟩ := by
  simp only [rasterV2, project_world_to_raster, Rasterization.new]
  norm_num

theorem xMinI_new44 : xMinI (Rasterization.new 4 4) = 1 := by
  rw [xMinI, rasterV0_new44, rasterV1_new44, rasterV2_new44]
  norm_num [fTrunc]

theorem xMaxI_new44 : xMaxI (Rasterization.new 4 4) = 3 := by
  rw [xMaxI, rasterV0_new44, rasterV1_new44, rasterV2_new44]
  simp only [Rasterization.new]
  norm_num [fTrunc]

theorem yMinI_new44 : yMinI (Rasterization.new 4 4) = 0 := by
  rw [yMinI, rasterV0_new44, rasterV1_new44, rasterV2_new44]
  norm_num [fTrunc]

theorem yMaxI_new44 : yMaxI (Rasterization.new 4 4) = 1 := by
  rw [yMaxI, rasterV0_new44, rasterV1_new44, rasterV2_new44]
  simp only [Rasterization.new]
  norm_num [fTrunc]

theorem insideTest_new44_21 : insideTest (Rasterization.new 4 4) 2 1 := by
  unfold insideTest alpha0At alpha1At alpha2At
  rw [rasterV0_new44, rasterV1_new44, rasterV2_new44]
  unfold edge_function
  norm_num

theorem rasterV0_rDeg : rasterV0 rDeg = ⟨3/2, 3/2⟩ := by
  simp only [rasterV0, project_world_to_raster, rDeg]
  norm_num

theorem rasterV1_rDeg : rasterV1 rDeg = ⟨3/2, 3/2⟩ := by
  simp only [rasterV1, project_world_to_raster, rDeg]
  norm_num

theorem rasterV2_rDeg : rasterV2 rDeg = ⟨3/2, 3/2⟩ := by
  simp only [rasterV2, project_world_to_raster, rDeg]
  norm_num

theorem xMinI_rDeg : xMinI rDeg = 1 := by
  rw [xMinI, rasterV0_rDeg, rasterV1_rDeg, rasterV2_rDeg]
  norm_num [fTrunc]

theorem xMaxI_rDeg : xMaxI rDeg = 1 := by
  rw [xMaxI, rasterV0_rDeg, rasterV1_rDeg, rasterV2_rDeg]
  simp only [rDeg]
  norm_num [fTrunc]

theorem yMinI_rDeg : yMinI rDeg = 1 := by
  rw [yMinI, rasterV0_rDeg, rasterV1_rDeg, rasterV2_rDeg]
  norm_num [fTrunc]

theorem yMaxI_rDeg : yMaxI rDeg = 1 := by
  rw [yMaxI, rasterV0_rDeg, rasterV1_rDeg, rasterV2_rDeg]
  simp only [rDeg]
  norm_num [fTrunc]

theorem alpha0At_rDeg_11 : alpha0At rDeg ⟨((1 : ℤ) : F), ((1 : ℤ) : F)⟩ = 0 := by
  rw [alpha0At, rasterV1_rDeg, rasterV2_rDeg, edge_function]
  norm_num

theorem alpha1At_rDeg_11 : alpha1At rDeg ⟨((1 : ℤ) : F), ((1 : ℤ) : F)⟩ = 0 := by
  rw [alpha1At, rasterV2_rDeg, rasterV0_rDeg, edge_function]
  norm_num

theorem alpha2At_rDeg_11 : alpha2At rDeg ⟨((1 : ℤ) : F), ((1 : ℤ) : F)⟩ = 0 := by
  rw [alpha2At, rasterV0_rDeg, rasterV1_rDeg, edge_function]
  norm_num

theorem insideTest_rDeg_11 : insideTest rDeg 1 1 := by
  unfold insideTest
  rw [alpha0At_rDeg_11, alpha1At_rDeg_11, alpha2At_rDeg_11]
  norm_num

theorem pixelValue_rDeg_11 : pixelValue rDeg 1 1 = ⟨1/3, 1/3, 1/3, 1⟩ := by
  unfold pixelValue
  rw [if_pos ⟨le_of_eq xMinI_rDeg, ge_of_eq xMaxI_rDeg, le_of_eq yMinI_rDeg,
    ge_of_eq yMaxI_rDeg, insideTest_rDeg_11⟩]
  unfold coverPix
  dsimp only
  rw [alpha0At_rDeg_11, alpha1At_rDeg_11, alpha2At_rDeg_11]
  simp only [rDeg, Vec3.add, Vec3.mulScalar]
  norm_num [normWeights]

theorem rasterV0_rOut : rasterV0 rOut = ⟨-(7/10), -(7/10)⟩ := by
  simp only [rasterV0, project_world_to_raster, rOut]
  norm_num

theorem rasterV1_rOut : rasterV1 rOut = ⟨-(7/10), -(7/10)⟩ := by
  simp only [rasterV1, project_world_to_raster, rOut]
  norm_num

theorem rasterV2_rOut : rasterV2 rOut = ⟨-(7/10), -(7/10)⟩ := by
  simp only [rasterV2, project_world_to_raster, rOut]
  norm_num

theorem xMinI_rOut : xMinI rOut = 0 := by
  rw [xMinI, rasterV0_rOut, rasterV1_rOut, rasterV2_rOut]
  norm_num [fTrunc]

theorem xMaxI_rOut : xMaxI rOut = 0 := by
  rw [xMaxI, rasterV0_rOut, rasterV1_rOut, rasterV2_rOut]
  simp only [rOut]
  norm_num [fTrunc]

theorem yMinI_rOut : yMinI rOut = 0 := by
  rw [yMinI, rasterV0_rOut, rasterV1_rOut, rasterV2_rOut]
  norm_num [fTrunc]

theorem yMaxI_rOut : yMaxI rOut = 0 := by
  rw [yMaxI, rasterV0_rOut, rasterV1_rOut, rasterV2_rOut]
  simp only [rOut]
  norm_num [fTrunc]

theorem alpha0At_rOut_00 : alpha0At rOut ⟨((0 : ℤ) : F), ((0 : ℤ) : F)⟩ = 0 := by
  rw [alpha0At, rasterV1_rOut, rasterV2_rOut, edge_function]
  norm_num

theorem alpha1At_rOut_00 : alpha1At rOut ⟨((0 : ℤ) : F), ((0 : ℤ) : F)⟩ = 0 := by
  rw [alpha1At, rasterV2_rOut, rasterV0_rOut, edge_function]
  norm_num

theorem alpha2At_rOut_00 : alpha2At rOut ⟨((0 : ℤ) : F), ((0 : ℤ) : F)⟩ = 0 := by
  rw [alpha2At, rasterV0_rOut, rasterV1_rOut, edge_function]
  norm_num

theorem insideTest_rOut_00 : insideTest rOut 0 0 := by
  unfold insideTest
  rw [alpha0At_rOut_00, alpha1At_rOut_00, alpha2At_rOut_00]
  norm_num

theorem pixelValue_rOut_00 : pixelValue rOut 0 0 = ⟨1/3, 1/3, 1/3, 1⟩ := by
  unfold pixelValue
  rw [if_pos ⟨le_of_eq xMinI_rOut, ge_of_eq xMaxI_rOut, le_of_eq yMinI_rOut,
    ge_of_eq yMaxI_rOut, insideTest_rOut_00⟩]
  unfold coverPix
  dsimp only
  rw [alpha0At_rOut_00, alpha1At_rOut_00, alpha2At_rOut_00]
  simp only [rOut, Vec3.add, Vec3.mulScalar]
  norm_num [normWeights]

theorem rasterV0_rFar : rasterV0 rFar = ⟨-(3/2), -(3/2)⟩ := by
  simp only [rasterV0, project_world_to_raster, rFar]
  norm_num

theorem rasterV1_rFar : rasterV1 rFar = ⟨-(3/2), -(3/2)⟩ := by
  simp only [rasterV1, project_world_to_raster, rFar]
  norm_num

theorem rasterV2_rFar : rasterV2 rFar = ⟨-(3/2), -(3/2)⟩ := by
  simp only [rasterV2, project_world_to_raster, rFar]
  norm_num

theorem xMinI_rFar : xMinI rFar = 0 := by
  rw [xMinI, rasterV0_rFar, rasterV1_rFar, rasterV2_rFar]
  norm_num [fTrunc]

theorem xMaxI_rFar : xMaxI rFar = -1 := by
  rw [xMaxI, rasterV0_rFar, rasterV1_rFar, rasterV2_rFar]
  simp only [rFar]
  norm_num [fTrunc, Int.ceil_eq_iff]

theorem alpha0At_new44_21 :
    alpha0At (Rasterization.new 4 4) ⟨((2 : ℤ) : F), ((1 : ℤ) : F)⟩ = 2 := by
  rw [alpha0At, rasterV1_new44, rasterV2_new44, edge_function]
  norm_num

theorem alpha1At_new44_21 :
    alpha1At (Rasterization.new 4 4) ⟨((2 : ℤ) : F), ((1 : ℤ) : F)⟩ = 1 := by
  rw [alpha1At, rasterV2_new44, rasterV0_new44, edge_function]
  norm_num

theorem alpha2At_new44_21 :
    alpha2At (Rasterization.new 4 4) ⟨((2 : ℤ) : F), ((1 : ℤ) : F)⟩ = 1 := by
  rw [alpha2At, rasterV0_new44, rasterV1_new44, edge_function]
  norm_num

theorem pixelValue_new44_21 :
    pixelValue (Rasterization.new 4 4) 2 1 = ⟨1/2, 1/4, 1/4, 1⟩ := by
  unfold pixelValue
  rw [if_pos ⟨by rw [xMinI_new44]; norm_num, by rw [xMaxI_new44]; norm_num,
    by rw [yMinI_new44]; norm_num, by rw [yMaxI_new44], insideTest_new44_21⟩]
  unfold coverPix
  dsimp only
  rw [alpha0At_new44_21, alpha1At_new44_21, alpha2At_new44_21]
  simp only [Rasterization.new, Vec3.add, Vec3.mulScalar]
  norm_num [normWeights]

/-! ### Claim theorems -/

/-- C1: the code never surfaces an "invalid viewport dimensions" error for
`height == 0`.  `new(800, 0)` constructs successfully (storing width 800 and
height 0), and `render()` returns normally with the `800 * 0 = 0`-pixel buffer;
`new`, `project_world_to_raster` and `render` are total functions with no error
channel in their types, so no construction-time or projection-time error can be
reported, contrary to the claim. -/
theorem height_zero_no_error :
    (Rasterization.new 800 0).width = 800 ∧ (Rasterization.new 800 0).height = 0 ∧
      render (Rasterization.new 800 0) = [] := by
  refine ⟨rfl, rfl, ?_⟩
  apply List.eq_nil_of_length_eq_zero
  rw [render_length_eq]
  rfl

/-- C2: for every rasterizer constructed with positive width and height, `render()`
returns exactly `width * height` RGBA pixels, and the entry at the row-major index
`i + j * width` is the pixel computed for coordinate `(i, j)`. -/
theorem render_dimensions (wd ht : ℤ) (hw : 0 < wd) (hh : 0 < ht) :
    (render (Rasterization.new wd ht)).length = (wd * ht).toNat ∧
      ∀ i j : ℤ, 0 ≤ i → i < wd → 0 ≤ j → j < ht →
        (render (Rasterization.new wd ht))[(i + j * wd).toNat]? =
          some (pixelValue (Rasterization.new wd ht) i j) := by
  constructor
  · rw [render_length_eq]
    rfl
  · intro i j h1 h2 h3 h4
    exact render_getElem (Rasterization.new wd ht) hw hh i j h1 h2 h3 h4

theorem render_dimensions_witness :
    ((0 : ℤ) < 4 ∧ (0 : ℤ) < 4) ∧
      (render (Rasterization.new 4 4)).length = ((4 : ℤ) * 4).toNat :=
  ⟨⟨by norm_num, by norm_num⟩, (render_dimensions 4 4 (by norm_num) (by norm_num)).1⟩

/-- C3: a pixel `(i, j)` of the bounding box is written (its alpha channel is `1.0`
rather than the initial `0.0`) exactly when the three edge-function values taken
over the projected vertices in cyclic order at the unshifted point `(i, j)` are all
nonnegative. -/
theorem render_inside_iff (self : Rasterization) (hw : 0 < self.width)
    (hh : 0 < self.height) (i j : ℤ) (h1 : xMinI self ≤ i) (h2 : i ≤ xMaxI self)
    (h3 : yMinI self ≤ j) (h4 : j ≤ yMaxI self) :
    ∃ p, (render self)[(i + j * self.width).toNat]? = some p ∧
      (p.a = 1 ↔
        (0 ≤ edge_function self (rasterV1 self) (rasterV2 self) ⟨(i : F), (j : F)⟩ ∧
          0 ≤ edge_function self (rasterV2 self) (rasterV0 self) ⟨(i : F), (j : F)⟩ ∧
          0 ≤ edge_function self (rasterV0 self) (rasterV1 self) ⟨(i : F), (j : F)⟩)) := by
  have hb1 := xMinI_nonneg self
  have hb2 := xMaxI_le self hw
  have hb3 := yMinI_nonneg self
  have hb4 := yMaxI_le self hh
  refine ⟨pixelValue self i j,
    render_getElem self hw hh i j (by omega) (by omega) (by omega) (by omega), ?_⟩
  unfold pixelValue
  by_cases hin : insideTest self i j
  · rw [if_pos ⟨h1, h2, h3, h4, hin⟩]
    exact ⟨fun _ => hin, fun _ => coverPix_a self i j⟩
  · rw [if_neg (fun hc => hin hc.2.2.2.2)]
    constructor
    · intro h0
      exfalso
      simp [zeroPix] at h0
    · intro hc
      exact absurd hc hin

theorem render_inside_iff_witness :
    (xMinI (Rasterization.new 4 4) ≤ 2 ∧ (2 : ℤ) ≤ xMaxI (Rasterization.new 4 4) ∧
      yMinI (Rasterization.new 4 4) ≤ 1 ∧ (1 : ℤ) ≤ yMaxI (Rasterization.new 4 4)) ∧
    ∃ p, (render (Rasterization.new 4 4))[((2 : ℤ) + (1 : ℤ) *
        (Rasterization.new 4 4).width).toNat]? = some p ∧
      (p.a = 1 ↔
        (0 ≤ edge_function (Rasterization.new 4 4) (rasterV1 (Rasterization.new 4 4))
            (rasterV2 (Rasterization.new 4 4)) ⟨((2 : ℤ) : F), ((1 : ℤ) : F)⟩ ∧
          0 ≤ edge_function (Rasterization.new 4 4) (rasterV2 (Rasterization.new 4 4))
            (rasterV0 (Rasterization.new 4 4)) ⟨((2 : ℤ) : F), ((1 : ℤ) : F)⟩ ∧
          0 ≤ edge_function (Rasterization.new 4 4) (rasterV0 (Rasterization.new 4 4))
            (rasterV1 (Rasterization.new 4 4)) ⟨((2 : ℤ) : F), ((1 : ℤ) : F)⟩)) :=
  ⟨⟨by rw [xMinI_new44]; norm_num, by rw [xMaxI_new44]; norm_num,
      by rw [yMinI_new44]; norm_num, by rw [yMaxI_new44]⟩,
    render_inside_iff (Rasterization.new 4 4) (by norm_num [Rasterization.new])
      (by norm_num [Rasterization.new]) 2 1 (by rw [xMinI_new44]; norm_num)
      (by rw [xMaxI_new44]; norm_num) (by rw [yMinI_new44]; norm_num)
      (by rw [yMaxI_new44])⟩

/-- C4: `project_world_to_raster` computes exactly the closed-form mapping of the
spec — `raster.x = ((x / aspect + 1) / (2 / width)) - 0.5` and
`raster.y = ((1 - y) / (2 / height)) - 0.5` with `aspect = width / height` — for
every rasterizer and point (so `z` is unused and the function is pure), and in
particular at `width = 800, height = 600`, point `(0.5, 0.5, 0.0)`. -/
theorem project_closed_form :
    (∀ (self : Rasterization) (point : Vec3),
      project_world_to_raster self point =
        ⟨(point.x / ((self.width : F) / (self.height : F)) + 1) / (2 / (self.width : F)) - 1/2,
          (1 - point.y) / (2 / (self.height : F)) - 1/2⟩) ∧
    project_world_to_raster (Rasterization.new 800 600) ⟨1/2, 1/2, 0⟩ =
      ⟨((1/2) / ((800 : F) / 600) + 1) / (2 / (800 : F)) - 1/2,
        (1 - 1/2) / (2 / (600 : F)) - 1/2⟩ := by
  constructor
  · intro self point
    rfl
  · simp only [project_world_to_raster, Rasterization.new]
    norm_num

/-- C5: every pixel of the buffer of the default rasterizer is either the untouched
transparent black or has its R, G, B channels in `[0, 1]` (a convex combination of
the unit-range vertex colours) with alpha channel exactly `1.0`. -/
theorem render_channel_bounds (wd ht : ℤ) (hw : 0 < wd) (hh : 0 < ht) :
    ∀ p ∈ render (Rasterization.new wd ht),
      p = zeroPix ∨
        (0 ≤ p.r ∧ p.r ≤ 1 ∧ 0 ≤ p.g ∧ p.g ≤ 1 ∧ 0 ≤ p.b ∧ p.b ≤ 1 ∧ p.a = 1) := by
  unfold render
  refine foldl_forall_mem ?_ _ _ ?_
  · intro px j hpx
    unfold rowStep
    refine foldl_forall_mem ?_ _ _ hpx
    intro px2 i hpx2
    unfold pixelStep
    by_cases hin : insideTest (Rasterization.new wd ht) i j
    · rw [if_pos hin]
      intro p hp
      rcases List.mem_or_eq_of_mem_set hp with h | h
      · exact hpx2 p h
      · right
        have hin2 : 0 ≤ alpha0At (Rasterization.new wd ht) ⟨(i : F), (j : F)⟩ ∧
            0 ≤ alpha1At (Rasterization.new wd ht) ⟨(i : F), (j : F)⟩ ∧
            0 ≤ alpha2At (Rasterization.new wd ht) ⟨(i : F), (j : F)⟩ := hin
        have hb := normWeights_unit hin2.1 hin2.2.1 hin2.2.2
        rw [h, coverPix_new]
        exact ⟨hb.1.1, hb.1.2, hb.2.1.1, hb.2.1.2, hb.2.2.1, hb.2.2.2, rfl⟩
    · rw [if_neg hin]
      exact hpx2
  · intro p hp
    left
    exact List.eq_of_mem_replicate hp

theorem render_channel_bounds_witness :
    (⟨1/2, 1/4, 1/4, 1⟩ : Pix) = zeroPix ∨
      (0 ≤ (⟨1/2, 1/4, 1/4, 1⟩ : Pix).r ∧ (⟨1/2, 1/4, 1/4, 1⟩ : Pix).r ≤ 1 ∧
        0 ≤ (⟨1/2, 1/4, 1/4, 1⟩ : Pix).g ∧ (⟨1/2, 1/4, 1/4, 1⟩ : Pix).g ≤ 1 ∧
        0 ≤ (⟨1/2, 1/4, 1/4, 1⟩ : Pix).b ∧ (⟨1/2, 1/4, 1/4, 1⟩ : Pix).b ≤ 1 ∧
        (⟨1/2, 1/4, 1/4, 1⟩ : Pix).a = 1) := by
  apply render_channel_bounds 4 4 (by norm_num) (by norm_num)
  have h := render_getElem (Rasterization.new 4 4) (by norm_num [Rasterization.new])
    (by norm_num [Rasterization.new]) 2 1 (by norm_num) (by norm_num [Rasterization.new])
    (by norm_num) (by norm_num [Rasterization.new])
  rw [pixelValue_new44_21, List.getElem?_eq_some] at h
  obtain ⟨hlt, hget⟩ := h
  rw [← hget]
  exact List.getElem_mem hlt

/-- C6: `edge_function` returns exactly
`(point.x - v0.x) * (v1.y - v0.y) - (point.y - v0.y) * (v1.x - v0.x)`, and the sign
convention holds: for `v0 = (0,0)`, `v1 = (1,0)` the value at `(0.5, -0.1)` is
positive and at `(0.5, 0.1)` negative. -/
theorem edge_function_spec :
    (∀ (self : Rasterization) (v0 v1 point : Vec2),
      edge_function self v0 v1 point =
        (point.x - v0.x) * (v1.y - v0.y) - (point.y - v0.y) * (v1.x - v0.x)) ∧
    0 < edge_function (Rasterization.new 800 600) ⟨0, 0⟩ ⟨1, 0⟩ ⟨1/2, -(1/10)⟩ ∧
    edge_function (Rasterization.new 800 600) ⟨0, 0⟩ ⟨1, 0⟩ ⟨1/2, 1/10⟩ < 0 := by
  refine ⟨fun self v0 v1 point => rfl, ?_, ?_⟩ <;> norm_num [edge_function]

/-- C7: the barycentric normalisation used for every inside-tested pixel divides by
`total = alpha0 + alpha1 + alpha2` only under the guard `total != 0` and falls back
to `(1/3, 1/3, 1/3)` when `total = 0`; end to end, the degenerate rasterizer `rDeg`
(all three vertices projecting to the raster point `(1.5, 1.5)`) renders its single
covered pixel `(1, 1)` with the fallback weights, `(1/3, 1/3, 1/3, 1)`. -/
theorem normWeights_guard :
    (∀ a0 a1 a2 : F,
      (a0 + a1 + a2 = 0 → normWeights a0 a1 a2 = (1/3, 1/3, 1/3)) ∧
      (a0 + a1 + a2 ≠ 0 → normWeights a0 a1 a2 =
        (a0 / (a0 + a1 + a2), a1 / (a0 + a1 + a2), a2 / (a0 + a1 + a2)))) ∧
    (render rDeg)[((1 : ℤ) + (1 : ℤ) * rDeg.width).toNat]? = some ⟨1/3, 1/3, 1/3, 1⟩ := by
  constructor
  · intro a0 a1 a2
    constructor
    · intro h
      unfold normWeights
      rw [if_neg (fun hc => hc h)]
    · intro h
      unfold normWeights
      rw [if_pos h]
  · have h := render_getElem rDeg (by decide) (by decide) 1 1 (by decide) (by decide)
      (by decide) (by decide)
    rw [pixelValue_rDeg_11] at h
    exact h

theorem normWeights_guard_witness :
    ((0 : F) + 0 + 0 = 0 ∧ normWeights 0 0 0 = (1/3, 1/3, 1/3)) ∧
      ((1 : F) + 1 + 1 ≠ 0 ∧ normWeights 1 1 1 = (1/3, 1/3, 1/3)) := by
  constructor
  · exact ⟨by norm_num, (normWeights_guard.1 0 0 0).1 (by norm_num)⟩
  · refine ⟨by norm_num, ?_⟩
    have h := (normWeights_guard.1 1 1 1).2 (by norm_num)
    rw [h]
    norm_num

/-- C8 counterexample: the triangle of `rOut` projects entirely to the raster point
`(-0.7, -0.7)` — strictly outside the viewport (every projected coordinate is below
`-0.5`, hence below `0`) — yet the clamped bounding box is the nonempty range
`{0} × {0}` (truncation toward zero sends `-0.7` to `0`), the loop iterates, and
pixel `(0, 0)` is painted `(1/3, 1/3, 1/3, 1)`: the buffer is not returned
unchanged. -/
theorem outside_triangle_paints_pixel :
    ((rasterV0 rOut).x < -(1/2) ∧ (rasterV0 rOut).y < -(1/2) ∧
      (rasterV1 rOut).x < -(1/2) ∧ (rasterV1 rOut).y < -(1/2) ∧
      (rasterV2 rOut).x < -(1/2) ∧ (rasterV2 rOut).y < -(1/2)) ∧
    xMinI rOut ≤ xMaxI rOut ∧ yMinI rOut ≤ yMaxI rOut ∧
    (render rOut)[((0 : ℤ) + (0 : ℤ) * rOut.width).toNat]? = some ⟨1/3, 1/3, 1/3, 1⟩ ∧
    (⟨1/3, 1/3, 1/3, 1⟩ : Pix) ≠ zeroPix := by
  refine ⟨⟨?_, ?_, ?_, ?_, ?_, ?_⟩, ?_, ?_, ?_, ?_⟩
  · rw [rasterV0_rOut]; norm_num
  · rw [rasterV0_rOut]; norm_num
  · rw [rasterV1_rOut]; norm_num
  · rw [rasterV1_rOut]; norm_num
  · rw [rasterV2_rOut]; norm_num
  · rw [rasterV2_rOut]; norm_num
  · rw [xMinI_rOut, xMaxI_rOut]
  · rw [yMinI_rOut, yMaxI_rOut]
  · have h := render_getElem rOut (by decide) (by decide) 0 0 (by decide) (by decide)
      (by decide) (by decide)
    rw [pixelValue_rOut_00] at h
    exact h
  · intro h
    simp only [zeroPix, Pix.mk.injEq] at h
    norm_num at h

theorem render_of_empty_box_witness :
    (xMaxI rFar < xMinI rFar ∨ yMaxI rFar < yMinI rFar) ∧
      render rFar = List.replicate (rFar.width * rFar.height).toNat zeroPix :=
  ⟨Or.inl (by rw [xMaxI_rFar, xMinI_rFar]; norm_num),
    render_of_empty_box rFar (Or.inl (by rw [xMaxI_rFar, xMinI_rFar]; norm_num))⟩

/-- C9: a viewport pixel `(i, j)` that lies outside the clamped bounding box, or
lies inside it but fails the all-edge-values-nonnegative inside test, is left at
its initialised value `[0,0,0,0]` in the returned buffer: only covered pixels are
overwritten. -/
theorem render_untouched_pixels (self : Rasterization) (hw : 0 < self.width)
    (hh : 0 < self.height) (i j : ℤ) (hi : 0 ≤ i) (hiw : i < self.width) (hj : 0 ≤ j)
    (hjh : j < self.height)
    (h : ¬ (xMinI self ≤ i ∧ i ≤ xMaxI self ∧ yMinI self ≤ j ∧ j ≤ yMaxI self) ∨
      ¬ insideTest self i j) :
    (render self)[(i + j * self.width).toNat]? = some zeroPix := by
  have hm := render_getElem self hw hh i j hi hiw hj hjh
  unfold pixelValue at hm
  rcases h with h | h
  · rwa [if_neg (fun hc => h ⟨hc.1, hc.2.1, hc.2.2.1, hc.2.2.2.1⟩)] at hm
  · rwa [if_neg (fun hc => h hc.2.2.2.2)] at hm

theorem render_untouched_pixels_witness :
    (¬ xMinI (Rasterization.new 4 4) ≤ 0) ∧
      (render (Rasterization.new 4 4))[((0 : ℤ) + (0 : ℤ) *
        (Rasterization.new 4 4).width).toNat]? = some zeroPix :=
  ⟨by rw [xMinI_new44]; norm_num,
    render_untouched_pixels (Rasterization.new 4 4) (by norm_num [Rasterization.new])
      (by norm_num [Rasterization.new]) 0 0 (by norm_num)
      (by norm_num [Rasterization.new]) (by norm_num) (by norm_num [Rasterization.new])
      (Or.inl (by intro hc; rw [xMinI_new44] at hc; omega))⟩

/-- C10 (implicit): for every rasterizer with positive width and height, every
pixel `(i, j)` of the clamped truncated bounding box satisfies
`0 ≤ i ≤ width - 1` and `0 ≤ j ≤ height - 1`, so the buffer index
`i + j * width` is below `width * height` and below the buffer length: the write
`pixels[idx]` cannot go out of bounds. -/
theorem render_index_in_bounds (self : Rasterization) (hw : 0 < self.width)
    (hh : 0 < self.height) (i j : ℤ) (h1 : xMinI self ≤ i) (h2 : i ≤ xMaxI self)
    (h3 : yMinI self ≤ j) (h4 : j ≤ yMaxI self) :
    0 ≤ i ∧ i ≤ self.width - 1 ∧ 0 ≤ j ∧ j ≤ self.height - 1 ∧
      (i + j * self.width).toNat < (self.width * self.height).toNat ∧
      (i + j * self.width).toNat < (render self).length := by
  have hb1 := xMinI_nonneg self
  have hb2 := xMaxI_le self hw
  have hb3 := yMinI_nonneg self
  have hb4 := yMaxI_le self hh
  have hidx : (i + j * self.width).toNat < (self.width * self.height).toNat := by
    have hja : j * self.width ≤ (self.height - 1) * self.width :=
      mul_le_mul_of_nonneg_right (by omega) hw.le
    have hjb : 0 ≤ j * self.width := mul_nonneg (by omega) hw.le
    have hc : (self.width - 1) + (self.height - 1) * self.width < self.width * self.height := by
      ring_nf
      nlinarith [hw, hh]
    omega
  refine ⟨by omega, by omega, by omega, by omega, hidx, ?_⟩
  rw [render_length_eq]
  exact hidx

theorem render_index_in_bounds_witness :
    (0 : ℤ) ≤ 1 ∧ (1 : ℤ) ≤ (Rasterization.new 4 4).width - 1 ∧ (0 : ℤ) ≤ 0 ∧
      (0 : ℤ) ≤ (Rasterization.new 4 4).height - 1 ∧
      ((1 : ℤ) + (0 : ℤ) * (Rasterization.new 4 4).width).toNat <
        ((Rasterization.new 4 4).width * (Rasterization.new 4 4).height).toNat ∧
      ((1 : ℤ) + (0 : ℤ) * (Rasterization.new 4 4).width).toNat <
        (render (Rasterization.new 4 4)).length :=
  render_index_in_bounds (Rasterization.new 4 4) (by norm_num [Rasterization.new])
    (by norm_num [Rasterization.new]) 1 0 (by rw [xMinI_new44])
    (by rw [xMaxI_new44]; norm_num) (by rw [yMinI_new44]) (by rw [yMaxI_new44]; norm_num)
